import Mathlib

/-! news-aggregator: window store, rate limiter, consumer loop, scraper IDs.

A shallow embedding of the Go sources

* `services/api/storage/storage.go`      (`InMemoryStorage`)
* `services/api/middleware/ratelimit.go` (`RateLimitMiddleware`, `getClientIP`, `cleanUpClients`)
* `services/api/kafka/consumer.go`       (`Consumer.StartConsuming`)
* `services/scraper/scraper/scraper.go`  (`generateArticleID`, the URL built by `scrapeVnExpress`)

Go strings are byte sequences, Go maps with string keys are association
lists without duplicate keys (`AList`), and a Go panic is the result `none`.
The rate-limiting handler is taken in its two parts, the locked section and
the later call of `Allow()`, so that requests in flight and passes of the
cleaner interleave as they can in the program.
-/

namespace NewsAggregator

/-! ## Data model -/

/-- A Go `string`: a sequence of bytes. -/
abbrev GoString : Type := List (Fin 256)

/-- The bytes of an ASCII literal. -/
def ascii (s : String) : GoString :=
  s.toList.map (fun c => Fin.ofNat c.toNat)

/-- The record `models.Article` (the same in both services). `Published`
(a `time.Time`) is kept as an integer instant. -/
structure Article where
  ID : GoString
  Title : GoString
  URL : GoString
  Source : GoString
  Published : Int
  Content : GoString
deriving DecidableEq

/-- A Go `map[string]V`. -/
abbrev GoMap (V : Type) : Type := AList (fun _ : GoString => V)

/-! ## `storage.go` -/

/-- The struct `InMemoryStorage` without its mutex. -/
structure InMemoryStorage where
  articles : GoMap Article
  latest : List Article
  capacity : Int

/-- `NewInMemoryStorage`: `make([]models.Article, 0, capacity)` panics on a
negative capacity. The allocation limit of the runtime is left out. -/
def NewInMemoryStorage (capacity : Int) : Option InMemoryStorage :=
  if capacity < 0 then none
  else some { articles := ∅, latest := [], capacity := capacity }

/-- `InMemoryStorage.AddArticle`. The slice expression `s.latest[1:]` panics
when `s.latest` is empty; the map has been written by then, but nothing can
observe it. -/
def AddArticle (s : InMemoryStorage) (article : Article) : Option InMemoryStorage :=
  if (s.articles.lookup article.ID).isSome then
    some s
  else
    let articles := s.articles.insert article.ID article
    if (s.latest.length : Int) < s.capacity then
      some { s with articles := articles, latest := s.latest ++ [article] }
    else
      match s.latest with
      | [] => none
      | _ :: rest => some { s with articles := articles, latest := rest ++ [article] }

/-- `InMemoryStorage.GetLatestArticles`: a copy of `latest`. -/
def GetLatestArticles (s : InMemoryStorage) : List Article :=
  s.latest

/-- `InMemoryStorage.GetArticleCount`: `len(s.articles)`. -/
def GetArticleCount (s : InMemoryStorage) : Nat :=
  s.articles.entries.length

/-- A run of `AddArticle` calls, in order; it stops at the first panic. -/
def addAll (s : InMemoryStorage) (as : List Article) : Option InMemoryStorage :=
  as.foldlM AddArticle s

/-- A fresh store followed by a run of `AddArticle` calls. -/
def freshThenAdd (capacity : Int) (as : List Article) : Option InMemoryStorage :=
  (NewInMemoryStorage capacity).bind (fun s => addAll s as)

/-! ### What the window should hold, in the words of the specification -/

/-- Keep only the first occurrence of each ID. -/
def keepFirst : List Article → List Article
  | [] => []
  | a :: rest => a :: (keepFirst rest).filter (fun b => b.ID ≠ a.ID)

/-- The last `n` entries of a list, oldest first. -/
def lastN {α : Type} (n : Nat) (l : List α) : List α :=
  l.drop (l.length - n)

/-- The window of capacity `C` after `as`: the last `min C k` of the `k`
first occurrences. -/
def window (C : Nat) (as : List Article) : List Article :=
  lastN (min C (keepFirst as).length) (keepFirst as)

/-- The window invariant of the data model. -/
def WindowInv (s : InMemoryStorage) : Prop :=
  (∀ a ∈ s.latest, s.articles.lookup a.ID = some a) ∧
  (s.latest.length : Int) ≤ s.capacity ∧
  (s.latest.map Article.ID).Nodup

/-- What a store holds after the calls `as`. -/
def Tracks (C : Nat) (as : List Article) (s : InMemoryStorage) : Prop :=
  s.capacity = (C : Int) ∧
  (∀ id, (s.articles.lookup id).isSome ↔ id ∈ as.map Article.ID) ∧
  s.latest = window C as ∧
  s.articles.entries.length = (keepFirst as).length

/-- The condition under which `AddArticle` evaluates the slice expression
`s.latest[1:]`: the ID is not in the mapping and `len(s.latest) < s.capacity`
does not hold. -/
def reachesEviction (s : InMemoryStorage) (article : Article) : Prop :=
  (s.articles.lookup article.ID).isSome = false ∧ ¬ ((s.latest.length : Int) < s.capacity)

/-- An article with the given ID and title, the other fields empty. -/
def mkArticle (id title : String) : Article :=
  { ID := ascii id, Title := ascii title, URL := [], Source := [], Published := 0,
    Content := [] }

/-- The store of capacity 2 after the calls a, b, c. -/
def storeABC : InMemoryStorage :=
  { articles := ((((∅ : GoMap Article).insert (ascii "a") (mkArticle "a" "T")).insert
      (ascii "b") (mkArticle "b" "U")).insert (ascii "c") (mkArticle "c" "V"))
    latest := [mkArticle "b" "U", mkArticle "c" "V"]
    capacity := 2 }

/-! ## `scraper.go` -/

/-- The call `strings.ReplaceAll(s, old, new)` for a one-byte `old`. -/
def ReplaceAll (s : GoString) (old : Fin 256) (new : GoString) : GoString :=
  s.flatMap (fun b => if b = old then new else [b])

/-- The lower-case hexadecimal digit of a value below 16. -/
def hexDigit (n : Nat) : Fin 256 :=
  if n < 10 then Fin.ofNat (48 + n) else Fin.ofNat (87 + n)

/-- The verb `%x` of `fmt.Sprintf` on a string: two lower-case hexadecimal
digits per byte. -/
def hexString (s : GoString) : GoString :=
  s.flatMap (fun b => [hexDigit (b.val / 16), hexDigit (b.val % 16)])

/-- `generateArticleID`:
`fmt.Sprintf("vnexpress-%x", strings.ReplaceAll(url, "/", "-"))`. -/
def generateArticleID (url : GoString) : GoString :=
  ascii "vnexpress-" ++ hexString (ReplaceAll url 47 (ascii "-"))

/-- `strings.HasPrefix`. -/
def HasPrefix (s pre : GoString) : Bool :=
  pre.isPrefixOf s

/-- The URL that the closure in `scrapeVnExpress` stores for a link. -/
def fullURL (href : GoString) : GoString :=
  if !HasPrefix href (ascii "http") then ascii "https://vnexpress.net" ++ href else href

/-- The body of the closure passed to `Each` in `scrapeVnExpress`, for one
`article.item-news` element: `href` is the attribute of the first matched link
(`none` when absent), `text` the text of the matched links, `published` the
instant returned by `parseVnExpressTime` and `content` the result of
`ScrapeArticleContent` (`none` on error). `TrimSpace` is `strings.TrimSpace`.
The result is the article appended to the list, if any. -/
def scrapeEntry (TrimSpace : GoString → GoString) (href : Option GoString) (text : GoString)
    (published : Int) (content : GoString → Option GoString) : Option Article :=
  let title := TrimSpace text
  match href with
  | some href =>
    if title ≠ [] then
      let url := fullURL href
      let article : Article :=
        { ID := generateArticleID url, Title := title, URL := url,
          Source := ascii "VnExpress", Published := published, Content := [] }
      match content url with
      | none => some article
      | some fullContent => some { article with Content := fullContent }
    else none
  | none => none

/-! ## `ratelimit.go`

An instant is a number of nanoseconds since the zero `time.Time`. -/

/-- Nanoseconds per second (`time.Second`). -/
def Second : Nat := 1000000000

/-- The constant `time.Minute`. -/
def Minute : Nat := 60 * Second

/-- Modelled from the spec: the token bucket `rate.Limiter` of
golang.org/x/time/rate, which is not part of the repository. It holds up to
`burst` tokens and is refilled at `limit` tokens per second; token counts are
exact rationals here. `last` is the instant of the last update of `tokens`. -/
structure Limiter where
  limit : ℚ
  burst : Int
  tokens : ℚ
  last : Nat
deriving DecidableEq

/-- Modelled from the spec: `rate.NewLimiter(r, b)`, a full bucket whose
`last` is the zero instant. -/
def NewLimiter (r : ℚ) (b : Int) : Limiter :=
  { limit := r, burst := b, tokens := b, last := 0 }

/-- Modelled from the spec: the tokens a bucket holds at `now`: what it held at
`last` plus the refill since then, capped at `burst`. An instant before `last`
refills nothing. -/
def Limiter.advance (lim : Limiter) (now : Nat) : ℚ :=
  let last := if now < lim.last then now else lim.last
  let elapsed : Nat := now - last
  min (lim.burst : ℚ) (lim.tokens + lim.limit * elapsed / Second)

/-- Modelled from the spec: `Limiter.Allow()` at `now`: an admitted request
consumes one token; a denied request leaves the bucket as it was. -/
def Limiter.Allow (lim : Limiter) (now : Nat) : Bool × Limiter :=
  let tokens := lim.advance now - 1
  if 0 ≤ tokens then (true, { lim with tokens := tokens, last := now })
  else (false, lim)

/-- The struct `Client`. The field `Limiter` is a `*rate.Limiter`: the address
of a bucket in `Middleware.limiters`. -/
structure Client where
  Limiter : Nat
  LastSeen : Nat
deriving DecidableEq

/-- The fields of `http.Request` that the middleware can read. `Header` maps
a canonical header name to its values. -/
structure Request where
  Method : GoString
  Header : GoMap (List GoString)
  RemoteAddr : GoString
  Body : GoString

/-- `http.Header.Get` for a name in canonical form: the first value of the
header, or the empty string. -/
def HeaderGet (h : GoMap (List GoString)) (key : GoString) : GoString :=
  match h.lookup key with
  | some (v :: _) => v
  | _ => []

/-- `getClientIP`. -/
def getClientIP (r : Request) : GoString :=
  let forwarded := HeaderGet r.Header (ascii "X-Forwarded-For")
  if forwarded ≠ [] then forwarded else r.RemoteAddr

/-- A request that has left the locked section of the handler (`mu.Unlock()`)
and has not yet called `Allow()`: its key and the bucket it holds. -/
structure Handler where
  ip : GoString
  Limiter : Nat
deriving DecidableEq

/-- The package variable `clients` with what the handler closures share with
it. `limiters` lists every `rate.Limiter` created so far, each with the key
it was created for; the position of a bucket is its address, and a bucket
stays there when the cleaner deletes the map entry that points to it.
`handlers` are the requests between `mu.Unlock()` and `Allow()`. -/
structure Middleware where
  limiters : List (GoString × Limiter)
  clients : GoMap Client
  handlers : List Handler

/-- The middleware right after `RateLimitMiddleware(rps, burst)` has been
called: `clients = make(map[string]*Client)`. -/
def Middleware.start : Middleware :=
  { limiters := [], clients := ∅, handlers := [] }

/-- The locked section of the handler returned by
`RateLimitMiddleware(rps, burst)`, from `getClientIP(r)` to `mu.Unlock()`:
find the client or create it with a new bucket, and store the clock reading
`seen` in `LastSeen`. The request then holds the client's bucket. -/
def handlerLock (rps : ℚ) (burst : Int) (m : Middleware) (r : Request) (seen : Nat) :
    Middleware :=
  let ip := getClientIP r
  match m.clients.lookup ip with
  | some client =>
    { m with
      clients := m.clients.insert ip { client with LastSeen := seen }
      handlers := m.handlers ++ [{ ip := ip, Limiter := client.Limiter }] }
  | none =>
    { limiters := m.limiters ++ [(ip, NewLimiter rps burst)]
      clients := m.clients.insert ip { Limiter := m.limiters.length, LastSeen := seen }
      handlers := m.handlers ++ [{ ip := ip, Limiter := m.limiters.length }] }

/-- The rest of the handler, from `client.Limiter.Allow()` on, for the request
in flight at position `h`: `Allow()` reads the clock (`now`) on the bucket the
request holds. The result names the key of the request and says whether it was
passed to `next` (`false`: answered 429); it is `none` when there is no such
request. A request in flight always holds a bucket that exists (`Sound`), so
the inner `none` is never taken. -/
def handlerAllow (m : Middleware) (h : Nat) (now : Nat) :
    Middleware × Option (GoString × Bool) :=
  match m.handlers[h]? with
  | none => (m, none)
  | some hd =>
    match m.limiters[hd.Limiter]? with
    | none => ({ m with handlers := m.handlers.eraseIdx h }, none)
    | some (owner, lim) =>
      let res := lim.Allow now
      ({ m with
         limiters := m.limiters.set hd.Limiter (owner, res.2)
         handlers := m.handlers.eraseIdx h },
       some (hd.ip, res.1))

/-- The handler returned by `RateLimitMiddleware(rps, burst)` when nothing
runs between its two parts: `seen` is the clock reading stored in `LastSeen`,
`now` the later one taken by `Allow()`. The flag says whether the request was
passed to `next`. -/
def RateLimitMiddleware (rps : ℚ) (burst : Int) (m : Middleware) (r : Request)
    (seen now : Nat) : Middleware × Bool :=
  let m1 := handlerLock rps burst m r seen
  let res := handlerAllow m1 (m1.handlers.length - 1) now
  (res.1, match res.2 with
    | some (_, ok) => ok
    | none => false)

/-- One pass of the loop body of `cleanUpClients` at the instant `now`: range
over the map and delete the entries with
`time.Since(client.LastSeen) > 5*time.Minute`. -/
def cleanUpClients (now : Nat) (clients : GoMap Client) : GoMap Client :=
  clients.entries.foldl
    (fun acc e => if (now : Int) - (e.2.LastSeen : Int) > 5 * (Minute : Int)
      then acc.erase e.1 else acc)
    clients

/-- Whether the cleaner keeps a client at `now`. -/
def keptAt (now : Nat) (c : Client) : Bool :=
  decide ((now : Int) - (c.LastSeen : Int) ≤ 5 * (Minute : Int))

/-- What happens to the middleware: a request goes through the locked section
of the handler, a request in flight calls `Allow()`, or the cleaner makes a
pass. -/
inductive Event where
  | enter (r : Request) (seen : Nat)
  | allow (h : Nat) (now : Nat)
  | sweep (now : Nat)

/-- The clock reading of an event. -/
def Event.time : Event → Nat
  | .enter _ seen => seen
  | .allow _ now => now
  | .sweep now => now

/-- One event on the middleware; the flag says whether a request of the
client `ip` was passed to `next`. -/
def stepEvent (rps : ℚ) (burst : Int) (ip : GoString) (m : Middleware) :
    Event → Middleware × Bool
  | .enter r seen => (handlerLock rps burst m r seen, false)
  | .allow h now =>
    let res := handlerAllow m h now
    (res.1, match res.2 with
      | some (key, ok) => ok && decide (key = ip)
      | none => false)
  | .sweep now => ({ m with clients := cleanUpClients now m.clients }, false)

/-- The number of requests of the client `ip` passed to `next` at instants
within `[t0, t1]`, over a run of events from the middleware `m`. -/
def forwardedIn (rps : ℚ) (burst : Int) (ip : GoString) (t0 t1 : Nat) :
    Middleware → List Event → Nat
  | _, [] => 0
  | m, e :: rest =>
    let res := stepEvent rps burst ip m e
    (if res.2 && decide (t0 ≤ e.time) && decide (e.time ≤ t1) then 1 else 0)
      + forwardedIn rps burst ip t0 t1 res.1 rest

/-- The events come in the order of their clock readings: the run lists them in
the order in which they take effect, and the clock does not go back. -/
@[reducible] def InOrder (evs : List Event) : Prop :=
  evs.Pairwise (fun e f => e.time ≤ f.time)

/-- A request from the peer `addr` without an `X-Forwarded-For` header. -/
def requestFrom (addr : String) : Request :=
  { Method := ascii "GET", Header := ∅, RemoteAddr := ascii addr, Body := [] }

/-- A request from the peer `addr` carrying `X-Forwarded-For: fwd`. -/
def requestVia (addr fwd : String) : Request :=
  { Method := ascii "GET"
    Header := (∅ : GoMap (List GoString)).insert (ascii "X-Forwarded-For") [ascii fwd]
    RemoteAddr := ascii addr, Body := [] }

/-! ## `consumer.go` -/

/-- The fields of `kafka.Message` that the loop reads. -/
structure Message where
  Offset : Int
  Value : GoString

/-- What the consumer loop acts on: the store, and the offsets of the messages
committed with the reader, oldest first. -/
structure ConsumerState where
  storage : InMemoryStorage
  committed : List Int

/-- `reader.CommitMessages(ctx, m)`, which succeeds (`ok`) or returns an
error. -/
def CommitMessages (committed : List Int) (m : Message) (ok : Bool) : List Int :=
  if ok then committed ++ [m.Offset] else committed

/-- The `default` branch of the `select` in `StartConsuming`: one iteration of
the loop. `fetch` is the result of `FetchMessage` (`none`: an error),
`commitOk` whether `CommitMessages` succeeds, and `Unmarshal` is
`json.Unmarshal` into an `Article` (`none`: an error). The result `none` is a
panic of `AddArticle`. -/
def iteration (Unmarshal : GoString → Option Article) (st : ConsumerState)
    (fetch : Option Message) (commitOk : Bool) : Option ConsumerState :=
  match fetch with
  | none => some st
  | some m =>
    match Unmarshal m.Value with
    | none => some { st with committed := CommitMessages st.committed m commitOk }
    | some article =>
      match AddArticle st.storage article with
      | none => none
      | some storage =>
        some { storage := storage, committed := CommitMessages st.committed m commitOk }

/-- What the environment does in one turn of the loop. -/
structure Turn where
  done : Bool
  fetch : Option Message
  commitOk : Bool

/-- `Consumer.StartConsuming` over the turns given: it returns when the
context is done. -/
def StartConsuming (Unmarshal : GoString → Option Article) :
    ConsumerState → List Turn → Option ConsumerState
  | st, [] => some st
  | st, t :: rest =>
    if t.done then some st
    else (iteration Unmarshal st t.fetch t.commitOk).bind
      (fun st' => StartConsuming Unmarshal st' rest)

/-- A decoder for the examples: the payload `article-5` is the article with
ID `a5`, every other payload is rejected. -/
def toyUnmarshal (v : GoString) : Option Article :=
  if v = ascii "article-5" then some (mkArticle "a5" "Title") else none

/-- The consumer of `main` before the first message. -/
def consumer0 : ConsumerState :=
  { storage := { articles := ∅, latest := [], capacity := 100 }, committed := [] }

/-- The client used in the examples. -/
def peer : GoString := ascii "1.2.3.4"

/-- The client `peer` goes through the locked section at instant 0 and calls
`Allow()` a microsecond later, stays silent, is found idle for more than five
minutes by a pass one nanosecond after 300 s, and sends a second request right
after it. -/
def gapThenBack : List Event :=
  [Event.enter (requestFrom "1.2.3.4") 0, Event.allow 0 1000,
   Event.sweep (300 * Second + 1),
   Event.enter (requestFrom "1.2.3.4") (300 * Second + 1), Event.allow 0 (300 * Second + 1)]

theorem AddArticle_of_mem {s : InMemoryStorage} {a : Article}
    (h : (s.articles.lookup a.ID).isSome) : AddArticle s a = some s := by
  simp [AddArticle, h]

theorem AddArticle_room {s : InMemoryStorage} {a : Article}
    (h : (s.articles.lookup a.ID).isSome = false)
    (hlt : (s.latest.length : Int) < s.capacity) :
    AddArticle s a = some { s with articles := s.articles.insert a.ID a,
                                   latest := s.latest ++ [a] } := by
  simp [AddArticle, h, hlt]

theorem AddArticle_full {s : InMemoryStorage} {a x : Article} {rest : List Article}
    (h : (s.articles.lookup a.ID).isSome = false)
    (hge : ¬ (s.latest.length : Int) < s.capacity) (hl : s.latest = x :: rest) :
    AddArticle s a = some { s with articles := s.articles.insert a.ID a,
                                   latest := rest ++ [a] } := by
  unfold AddArticle
  simp only [h, hge, Bool.false_eq_true, if_false]
  rw [hl]

theorem AddArticle_panic {s : InMemoryStorage} {a : Article}
    (h : (s.articles.lookup a.ID).isSome = false)
    (hge : ¬ (s.latest.length : Int) < s.capacity) (hl : s.latest = []) :
    AddArticle s a = none := by
  unfold AddArticle
  simp only [h, hge, Bool.false_eq_true, if_false]
  rw [hl]

/-- The capacity never changes. -/
theorem AddArticle_capacity {s s' : InMemoryStorage} {a : Article}
    (h : AddArticle s a = some s') : s'.capacity = s.capacity := by
  unfold AddArticle at h
  split at h
  · cases h; rfl
  · simp only at h
    split at h
    · cases h; rfl
    · split at h
      · cases h
      · cases h; rfl

/-- The window invariant is preserved by `AddArticle`. -/
theorem WindowInv_AddArticle {s s' : InMemoryStorage} {a : Article}
    (hinv : WindowInv s) (h : AddArticle s a = some s') : WindowInv s' := by
  obtain ⟨hmem, hlen, hnd⟩ := hinv
  by_cases hin : (s.articles.lookup a.ID).isSome
  · rw [AddArticle_of_mem hin] at h
    cases h
    exact ⟨hmem, hlen, hnd⟩
  · have hin' : (s.articles.lookup a.ID).isSome = false := by simpa using hin
    have hnone : s.articles.lookup a.ID = none := by
      cases hq : s.articles.lookup a.ID with
      | none => rfl
      | some v => rw [hq] at hin'; cases hin'
    have hne : ∀ b ∈ s.latest, b.ID ≠ a.ID := by
      intro b hb heq
      have := hmem b hb
      rw [heq, hnone] at this
      cases this
    have hfresh : a.ID ∉ s.latest.map Article.ID := by
      intro hc
      obtain ⟨b, hb, hbid⟩ := List.mem_map.1 hc
      exact hne b hb hbid
    by_cases hlt : (s.latest.length : Int) < s.capacity
    · rw [AddArticle_room hin' hlt] at h
      cases h
      refine ⟨?_, ?_, ?_⟩
      · intro b hb
        rcases List.mem_append.1 hb with hb | hb
        · show (s.articles.insert a.ID a).lookup b.ID = some b
          rw [AList.lookup_insert_ne (hne b hb)]
          exact hmem b hb
        · have : b = a := by simpa using hb
          subst this
          exact AList.lookup_insert _
      · show ((s.latest ++ [a]).length : Int) ≤ s.capacity
        simp only [List.length_append, List.length_singleton]
        push_cast
        omega
      · show ((s.latest ++ [a]).map Article.ID).Nodup
        rw [List.map_append, List.map_singleton]
        exact List.Nodup.append hnd (List.nodup_singleton _)
          (by simpa [List.Disjoint] using hfresh)
    · cases hl : s.latest with
      | nil => rw [AddArticle_panic hin' hlt hl] at h; cases h
      | cons x rest =>
        rw [AddArticle_full hin' hlt hl] at h
        cases h
        have hsub : ∀ b ∈ rest, b ∈ s.latest := by
          intro b hb; rw [hl]; exact List.mem_cons_of_mem _ hb
        refine ⟨?_, ?_, ?_⟩
        · intro b hb
          rcases List.mem_append.1 hb with hb | hb
          · show (s.articles.insert a.ID a).lookup b.ID = some b
            rw [AList.lookup_insert_ne (hne b (hsub b hb))]
            exact hmem b (hsub b hb)
          · have : b = a := by simpa using hb
            subst this
            exact AList.lookup_insert _
        · show ((rest ++ [a]).length : Int) ≤ s.capacity
          rw [hl] at hlen
          simp only [List.length_append, List.length_singleton, List.length_cons] at hlen ⊢
          exact hlen
        · show ((rest ++ [a]).map Article.ID).Nodup
          rw [List.map_append, List.map_singleton]
          have hnd' : (rest.map Article.ID).Nodup := by
            rw [hl, List.map_cons] at hnd
            exact (List.nodup_cons.1 hnd).2
          have hfresh' : a.ID ∉ rest.map Article.ID := by
            intro hc
            apply hfresh
            rw [hl, List.map_cons]
            exact List.mem_cons_of_mem _ hc
          exact List.Nodup.append hnd' (List.nodup_singleton _)
            (by simpa [List.Disjoint] using hfresh')

theorem WindowInv_addAll (as : List Article) : ∀ {s s' : InMemoryStorage},
    WindowInv s → addAll s as = some s' → WindowInv s' ∧ s'.capacity = s.capacity := by
  induction as with
  | nil =>
    intro s s' hinv h
    simp only [addAll, List.foldlM, pure] at h
    cases h
    exact ⟨hinv, rfl⟩
  | cons a rest ih =>
    intro s s' hinv h
    simp only [addAll, List.foldlM_cons] at h
    cases h1 : AddArticle s a with
    | none => rw [h1] at h; cases h
    | some s1 =>
      rw [h1] at h
      have := ih (WindowInv_AddArticle hinv h1) h
      exact ⟨this.1, this.2.trans (AddArticle_capacity h1)⟩


/-! ### The window as a function of the calls -/

theorem keepFirst_snoc (l : List Article) (a : Article) :
    keepFirst (l ++ [a]) =
      if a.ID ∈ l.map Article.ID then keepFirst l else keepFirst l ++ [a] := by
  induction l with
  | nil => simp [keepFirst]
  | cons b rest ih =>
    rw [List.cons_append, keepFirst, ih]
    simp only [keepFirst, List.map_cons, List.mem_cons]
    by_cases h1 : a.ID ∈ rest.map Article.ID
    · rw [if_pos h1, if_pos (Or.inr h1)]
    · rw [if_neg h1]
      by_cases h2 : a.ID = b.ID
      · rw [if_pos (Or.inl h2)]
        simp [List.filter_append, h2]
      · rw [if_neg (by simp [h1, h2])]
        simp [List.filter_append, h2]

theorem length_keepFirst (l : List Article) :
    (keepFirst l).length = (l.map Article.ID).toFinset.card := by
  induction l using List.reverseRecOn with
  | nil => simp [keepFirst]
  | append_singleton l a ih =>
    rw [keepFirst_snoc]
    by_cases h : a.ID ∈ l.map Article.ID
    · rw [if_pos h, ih, List.map_append, List.toFinset_append]
      congr 1
      ext x
      simp only [List.map_singleton, List.toFinset_cons, List.toFinset_nil, Finset.mem_union,
        List.mem_toFinset, Finset.mem_insert, Finset.not_mem_empty, or_false]
      constructor
      · intro hx; exact Or.inl hx
      · rintro (hx | hx)
        · exact hx
        · rw [hx]; exact h
    · rw [if_neg h, List.length_append, ih, List.map_append, List.toFinset_append]
      simp only [List.length_singleton, List.map_singleton, List.toFinset_cons,
        List.toFinset_nil]
      rw [Finset.card_union_of_disjoint]
      · simp
      · simpa using h

theorem lastN_snoc_room {α : Type} (C : Nat) (l : List α) (a : α) (h : l.length < C) :
    lastN (min C (l.length + 1)) (l ++ [a]) = lastN (min C l.length) l ++ [a] := by
  have h1 : min C (l.length + 1) = l.length + 1 := by omega
  have h2 : min C l.length = l.length := by omega
  simp [lastN, h1, h2]

theorem lastN_snoc_full {α : Type} (C : Nat) (hC : 1 ≤ C) (l : List α) (a : α)
    (h : C ≤ l.length) :
    lastN (min C (l.length + 1)) (l ++ [a]) = (lastN (min C l.length) l).tail ++ [a] := by
  have h1 : min C (l.length + 1) = C := by omega
  have h2 : min C l.length = C := by omega
  rw [h1, h2]
  simp only [lastN, List.length_append, List.length_singleton, List.tail_drop]
  have h4 : l.length + 1 - C ≤ l.length := by omega
  rw [List.drop_append_of_le_length h4]
  have h3 : l.length + 1 - C = l.length - C + 1 := by omega
  rw [h3]

theorem length_lastN {α : Type} (n : Nat) (l : List α) :
    (lastN n l).length = min n l.length := by
  simp only [lastN, List.length_drop]
  omega

theorem Tracks_AddArticle {C : Nat} (hC : 1 ≤ C) {as : List Article} {s : InMemoryStorage}
    (a : Article) (ht : Tracks C as s) :
    ∃ s', AddArticle s a = some s' ∧ Tracks C (as ++ [a]) s' := by
  obtain ⟨hcap, hkeys, hlat, hcount⟩ := ht
  by_cases hin : (s.articles.lookup a.ID).isSome
  · refine ⟨s, AddArticle_of_mem hin, hcap, ?_, ?_, ?_⟩
    · intro id
      rw [hkeys id, List.map_append, List.mem_append]
      constructor
      · exact Or.inl
      · rintro (h | h)
        · exact h
        · have : id = a.ID := by simpa using h
          rw [this]; exact (hkeys a.ID).1 hin
    · rw [hlat, window, window, keepFirst_snoc, if_pos ((hkeys a.ID).1 hin)]
    · rw [hcount, keepFirst_snoc, if_pos ((hkeys a.ID).1 hin)]
  · have hin' : (s.articles.lookup a.ID).isSome = false := by simpa using hin
    have hnot : a.ID ∉ as.map Article.ID := fun hc => hin ((hkeys a.ID).2 hc)
    have hkeys' : ∀ id, ((s.articles.insert a.ID a).lookup id).isSome ↔
        id ∈ (as ++ [a]).map Article.ID := by
      intro id
      rw [List.map_append, List.mem_append]
      by_cases hid : id = a.ID
      · subst hid; simp
      · rw [AList.lookup_insert_ne hid, hkeys id]
        simp [hid]
    have hcount' : (s.articles.insert a.ID a).entries.length
        = (keepFirst (as ++ [a])).length := by
      have hnm : a.ID ∉ s.articles := by
        rw [← AList.lookup_isSome]; exact hin
      rw [AList.insert_entries_of_neg hnm, keepFirst_snoc, if_neg hnot]
      simp [hcount]
    have hlen : s.latest.length = min C (keepFirst as).length := by
      rw [hlat, window, length_lastN]
      omega
    by_cases hlt : (s.latest.length : Int) < s.capacity
    · refine ⟨_, AddArticle_room hin' hlt, hcap, hkeys', ?_, hcount'⟩
      have hk : (keepFirst as).length < C := by
        rw [hcap] at hlt
        have : s.latest.length < C := by exact_mod_cast hlt
        omega
      show s.latest ++ [a] = window C (as ++ [a])
      rw [window, keepFirst_snoc, if_neg hnot, List.length_append, List.length_singleton,
        lastN_snoc_room C _ a hk, hlat, window]
    · have hk : C ≤ (keepFirst as).length := by
        rw [hcap] at hlt
        have : ¬ s.latest.length < C := by exact_mod_cast hlt
        omega
      cases hl : s.latest with
      | nil =>
        rw [hl] at hlen
        simp only [List.length_nil] at hlen
        omega
      | cons x rest =>
        refine ⟨_, AddArticle_full hin' hlt hl, hcap, hkeys', ?_, hcount'⟩
        show rest ++ [a] = window C (as ++ [a])
        rw [window, keepFirst_snoc, if_neg hnot, List.length_append, List.length_singleton,
          lastN_snoc_full C hC _ a hk]
        have : rest = s.latest.tail := by rw [hl]; rfl
        rw [this, hlat, window]

theorem Tracks_addAll {C : Nat} (hC : 1 ≤ C) (bs : List Article) :
    ∀ {as : List Article} {s : InMemoryStorage}, Tracks C as s →
      ∃ s', addAll s bs = some s' ∧ Tracks C (as ++ bs) s' := by
  induction bs with
  | nil =>
    intro as s ht
    exact ⟨s, rfl, by simpa using ht⟩
  | cons b rest ih =>
    intro as s ht
    obtain ⟨s1, h1, ht1⟩ := Tracks_AddArticle hC b ht
    obtain ⟨s2, h2, ht2⟩ := ih ht1
    refine ⟨s2, ?_, by simpa using ht2⟩
    simp only [addAll, List.foldlM_cons, h1]
    exact h2

/-- With a capacity of at least one, every run of calls on a fresh store
returns, and the store then holds the window and one map entry per ID. -/
theorem freshThenAdd_spec {C : Nat} (hC : 1 ≤ C) (as : List Article) :
    ∃ s, freshThenAdd (C : Int) as = some s ∧
      GetLatestArticles s = window C as ∧
      GetArticleCount s = (as.map Article.ID).toFinset.card := by
  have h0 : Tracks C [] { articles := ∅, latest := [], capacity := (C : Int) } :=
    ⟨rfl, by simp, by simp [window, keepFirst, lastN], by simp [keepFirst]⟩
  obtain ⟨s, hs, ht⟩ := Tracks_addAll hC as h0
  refine ⟨s, ?_, ht.2.2.1, ?_⟩
  · have hneg : ¬ ((C : Int) < 0) := by omega
    simp only [freshThenAdd, NewInMemoryStorage, hneg, if_false, Option.bind]
    exact hs
  · rw [GetArticleCount, ht.2.2.2, length_keepFirst]
    simp

/-- C1 (failing input): with capacity 0 the first `AddArticle` on a fresh store
panics at `s.latest[1:]`, so no window is ever returned, while the window the
claim describes is the empty list. -/
theorem C1_capacity_zero_panics (a : Article) (rest : List Article) :
    freshThenAdd 0 (a :: rest) = none ∧ window 0 (a :: rest) = [] := by
  constructor
  · have h : AddArticle { articles := ∅, latest := [], capacity := 0 } a = none := by
      apply AddArticle_panic <;> simp
    simp [freshThenAdd, NewInMemoryStorage, addAll, List.foldlM_cons, h]
  · simp [window, lastN]

/-- C2: in every state reached from `NewInMemoryStorage(C)` by `AddArticle`
calls, each entry of `latest` is in `articles` under its ID, `latest` is no
longer than `C`, and no two entries of `latest` share an ID. -/
theorem C2_window_invariant (C : Int) (as : List Article) (s : InMemoryStorage)
    (h : freshThenAdd C as = some s) :
    (∀ a ∈ s.latest, s.articles.lookup a.ID = some a) ∧
    (s.latest.length : Int) ≤ C ∧
    (s.latest.map Article.ID).Nodup := by
  unfold freshThenAdd NewInMemoryStorage at h
  by_cases hneg : C < 0
  · simp [hneg] at h
  · simp only [hneg, if_false, Option.bind] at h
    have h0 : WindowInv { articles := ∅, latest := [], capacity := C } :=
      ⟨by simp, by simpa using hneg, by simp⟩
    obtain ⟨⟨h1, h2, h3⟩, hcap⟩ := WindowInv_addAll as h0 h
    exact ⟨h1, by rw [← show s.capacity = C from hcap]; exact h2, h3⟩

/-- The run a, b, c on a store of capacity 2 ends with the window b, c, and the
invariant holds of the store it reaches. -/
theorem C2_window_invariant_witness :
    freshThenAdd 2 [mkArticle "a" "T", mkArticle "b" "U", mkArticle "c" "V"] = some storeABC ∧
    GetLatestArticles storeABC = [mkArticle "b" "U", mkArticle "c" "V"] ∧
    ((∀ a ∈ storeABC.latest, storeABC.articles.lookup a.ID = some a) ∧
      (storeABC.latest.length : Int) ≤ 2 ∧
      (storeABC.latest.map Article.ID).Nodup) :=
  ⟨rfl, rfl,
   C2_window_invariant 2 [mkArticle "a" "T", mkArticle "b" "U", mkArticle "c" "V"] storeABC
     rfl⟩

/-- C3: `AddArticle` is idempotent: calling it twice with the same article is
the same as calling it once (with a capacity of at least one both return the
same store), and adding an article whose ID is already in the mapping returns
the store unchanged, whatever its other fields. -/
theorem C3_AddArticle_idempotent (s : InMemoryStorage) (a : Article) :
    (AddArticle s a).bind (fun s' => AddArticle s' a) = AddArticle s a ∧
    (1 ≤ s.capacity → ∃ s', AddArticle s a = some s' ∧ AddArticle s' a = some s') ∧
    (∀ b : Article, (s.articles.lookup b.ID).isSome → AddArticle s b = some s) := by
  have hidem : ∀ s', AddArticle s a = some s' → AddArticle s' a = some s' := by
    intro s' h
    by_cases hin : (s.articles.lookup a.ID).isSome
    · rw [AddArticle_of_mem hin] at h
      cases h
      exact AddArticle_of_mem hin
    · have hin' : (s.articles.lookup a.ID).isSome = false := by simpa using hin
      apply AddArticle_of_mem
      by_cases hlt : (s.latest.length : Int) < s.capacity
      · rw [AddArticle_room hin' hlt] at h
        cases h
        simp
      · cases hl : s.latest with
        | nil => rw [AddArticle_panic hin' hlt hl] at h; cases h
        | cons x rest =>
          rw [AddArticle_full hin' hlt hl] at h
          cases h
          simp
  refine ⟨?_, ?_, fun b hb => AddArticle_of_mem hb⟩
  · cases h : AddArticle s a with
    | none => rfl
    | some s' => exact hidem s' h
  · intro hcap
    have hsome : ∃ s', AddArticle s a = some s' := by
      by_cases hin : (s.articles.lookup a.ID).isSome
      · exact ⟨s, AddArticle_of_mem hin⟩
      · have hin' : (s.articles.lookup a.ID).isSome = false := by simpa using hin
        by_cases hlt : (s.latest.length : Int) < s.capacity
        · exact ⟨_, AddArticle_room hin' hlt⟩
        · cases hl : s.latest with
          | nil =>
            rw [hl] at hlt
            simp only [List.length_nil] at hlt
            omega
          | cons x rest => exact ⟨_, AddArticle_full hin' hlt hl⟩
    obtain ⟨s', hs'⟩ := hsome
    exact ⟨s', hs', hidem s' hs'⟩

/-- Adding a, a, b gives the window a, b; a second call with a new article and a
call with a known ID under another title both return the store unchanged. -/
theorem C3_AddArticle_idempotent_witness :
    (freshThenAdd 100 [mkArticle "a" "T", mkArticle "a" "T", mkArticle "b" "U"]).map
        GetLatestArticles = some [mkArticle "a" "T", mkArticle "b" "U"] ∧
    (1 ≤ storeABC.capacity ∧
      ∃ s', AddArticle storeABC (mkArticle "d" "W") = some s' ∧
        AddArticle s' (mkArticle "d" "W") = some s') ∧
    ((storeABC.articles.lookup (mkArticle "b" "another title").ID).isSome = true ∧
      AddArticle storeABC (mkArticle "b" "another title") = some storeABC) :=
  ⟨by decide,
   ⟨by decide, (C3_AddArticle_idempotent storeABC (mkArticle "d" "W")).2.1 (by decide)⟩,
   ⟨by decide, (C3_AddArticle_idempotent storeABC (mkArticle "d" "W")).2.2
     (mkArticle "b" "another title") (by decide)⟩⟩

/-- C4 (failing input): with capacity 0 the run `AddArticle(a)` on a fresh store
panics, so `GetArticleCount` is never reached, while one distinct ID occurred. -/
theorem C4_capacity_zero_no_count (a : Article) :
    (freshThenAdd 0 [a]).map GetArticleCount = none ∧
    ([a].map Article.ID).toFinset.card = 1 := by
  constructor
  · have h : AddArticle { articles := ∅, latest := [], capacity := 0 } a = none := by
      apply AddArticle_panic <;> simp
    simp [freshThenAdd, NewInMemoryStorage, addAll, List.foldlM_cons, h]
  · simp

theorem freshThenAdd_WindowInv {C : Int} {as : List Article} {s : InMemoryStorage}
    (h : freshThenAdd C as = some s) : WindowInv s ∧ s.capacity = C := by
  unfold freshThenAdd NewInMemoryStorage at h
  by_cases hneg : C < 0
  · simp [hneg] at h
  · simp only [hneg, if_false, Option.bind] at h
    have h0 : WindowInv { articles := ∅, latest := [], capacity := C } :=
      ⟨by simp, by simpa using hneg, by simp⟩
    exact WindowInv_addAll as h0 h

/-- C11: with a capacity `C` of at least one, every run of `AddArticle` calls on
a fresh store returns, and whenever a call reaches `s.latest[1:]` the sequence
has exactly `C` entries, so it is not empty and the call returns. With capacity
0 the first `AddArticle` on the fresh store reaches `s.latest[1:]` with the
empty sequence and panics. -/
theorem C11_eviction_in_bounds (C : Nat) (hC : 1 ≤ C) (as : List Article) :
    (∃ s, freshThenAdd (C : Int) as = some s) ∧
    (∀ s, freshThenAdd (C : Int) as = some s → ∀ a, reachesEviction s a →
      s.latest.length = C ∧ s.latest ≠ [] ∧ ∃ s', AddArticle s a = some s') ∧
    (∀ a : Article, ∃ s0, NewInMemoryStorage 0 = some s0 ∧ reachesEviction s0 a ∧
      s0.latest = [] ∧ AddArticle s0 a = none) := by
  refine ⟨?_, ?_, ?_⟩
  · obtain ⟨s, hs, _⟩ := freshThenAdd_spec hC as
    exact ⟨s, hs⟩
  · intro s hs a hev
    obtain ⟨⟨_, hlen, _⟩, hcap⟩ := freshThenAdd_WindowInv hs
    obtain ⟨hnew, hge⟩ := hev
    have hlenC : s.latest.length = C := by
      rw [hcap] at hlen hge
      have h1 : s.latest.length ≤ C := by exact_mod_cast hlen
      have h2 : ¬ s.latest.length < C := by exact_mod_cast hge
      omega
    cases hl : s.latest with
    | nil =>
      rw [hl] at hlenC
      simp only [List.length_nil] at hlenC
      omega
    | cons x rest =>
      rw [hl] at hlenC
      exact ⟨hlenC, List.cons_ne_nil _ _, _, AddArticle_full hnew hge hl⟩
  · intro a
    refine ⟨{ articles := ∅, latest := [], capacity := 0 }, rfl, ⟨by simp, by simp⟩, rfl, ?_⟩
    apply AddArticle_panic <;> simp

/-- The store of capacity 2 after a, b, c is full: a call with the new ID `d`
reaches the slice expression with two entries and returns. -/
theorem C11_eviction_in_bounds_witness :
    1 ≤ 2 ∧
    freshThenAdd ((2 : Nat) : Int) [mkArticle "a" "T", mkArticle "b" "U", mkArticle "c" "V"]
      = some storeABC ∧
    reachesEviction storeABC (mkArticle "d" "W") ∧
    (storeABC.latest.length = 2 ∧ storeABC.latest ≠ [] ∧
      ∃ s', AddArticle storeABC (mkArticle "d" "W") = some s') :=
  ⟨by decide, rfl, ⟨by decide, by decide⟩,
   (C11_eviction_in_bounds 2 (by decide)
      [mkArticle "a" "T", mkArticle "b" "U", mkArticle "c" "V"]).2.1 storeABC rfl
      (mkArticle "d" "W") ⟨by decide, by decide⟩⟩

/-! ## Scraper -/

theorem hexDigit_injOn : ∀ m : Fin 16, ∀ n : Fin 16,
    hexDigit m.val = hexDigit n.val → m = n := by
  decide

theorem byte_eq_of_hexDigits (a b : Fin 256)
    (hhi : hexDigit (a.val / 16) = hexDigit (b.val / 16))
    (hlo : hexDigit (a.val % 16) = hexDigit (b.val % 16)) : a = b := by
  have ha := a.isLt
  have hb := b.isLt
  have h1 := hexDigit_injOn ⟨a.val / 16, by omega⟩ ⟨b.val / 16, by omega⟩ hhi
  have h2 := hexDigit_injOn ⟨a.val % 16, by omega⟩ ⟨b.val % 16, by omega⟩ hlo
  have h1' : a.val / 16 = b.val / 16 := congrArg Fin.val h1
  have h2' : a.val % 16 = b.val % 16 := congrArg Fin.val h2
  apply Fin.ext
  omega

/-- The hexadecimal encoding loses nothing. -/
theorem hexString_injective : ∀ s t : GoString, hexString s = hexString t → s = t := by
  intro s
  induction s with
  | nil =>
    intro t h
    cases t with
    | nil => rfl
    | cons b t => simp [hexString] at h
  | cons a s ih =>
    intro t h
    cases t with
    | nil => simp [hexString] at h
    | cons b t =>
      simp only [hexString, List.flatMap_cons, List.cons_append, List.nil_append,
        List.cons.injEq] at h
      obtain ⟨h1, h2, h3⟩ := h
      rw [byte_eq_of_hexDigits a b h1 h2, ih t h3]

/-- Two URLs get the same ID exactly when they agree after every `/` has been
replaced by `-`. -/
theorem generateArticleID_eq_iff (u v : GoString) :
    generateArticleID u = generateArticleID v ↔
      ReplaceAll u 47 (ascii "-") = ReplaceAll v 47 (ascii "-") := by
  constructor
  · intro h
    exact hexString_injective _ _ (List.append_cancel_left h)
  · intro h
    simp only [generateArticleID, h]

/-- C5 (failing input): two different URLs, one with `/` where the other has
`-`, get the same ID, because `generateArticleID` replaces every `/` by `-`
before encoding. -/
theorem C5_generateArticleID_collision :
    ascii "https://vnexpress.net/a/b" ≠ ascii "https://vnexpress.net/a-b" ∧
    generateArticleID (ascii "https://vnexpress.net/a/b") =
      generateArticleID (ascii "https://vnexpress.net/a-b") := by
  decide

/-- Every stored URL begins with `http`. -/
theorem fullURL_hasPrefix_http (href : GoString) :
    HasPrefix (fullURL href) (ascii "http") = true := by
  unfold fullURL
  by_cases h : HasPrefix href (ascii "http") = true
  · simp [h]
  · simp only [h, Bool.not_eq_true, Bool.not_false, if_true]
    simp only [HasPrefix, List.isPrefixOf_iff_prefix]
    exact ⟨ascii "s://vnexpress.net" ++ href, by
      rw [← List.append_assoc]; rfl⟩

/-- A link that does not begin with `http` is stored with the scheme
`https://`. -/
theorem fullURL_of_not_http (href : GoString) (h : HasPrefix href (ascii "http") = false) :
    HasPrefix (fullURL href) (ascii "https://") = true := by
  unfold fullURL
  simp only [h, Bool.not_false, if_true]
  simp only [HasPrefix, List.isPrefixOf_iff_prefix]
  exact ⟨ascii "vnexpress.net" ++ href, by rw [← List.append_assoc]; rfl⟩

/-- C10 (failing input): a relative link whose path begins with the letters
`http` passes the test `strings.HasPrefix(fullURL, "http")`, so the article is
built with the link as it stands, which begins with neither `http://` nor
`https://`. -/
theorem C10_relative_href_kept :
    (scrapeEntry (fun t => t) (some (ascii "http-2-explained.html")) (ascii "T") 0
        (fun _ => none)).map Article.URL = some (ascii "http-2-explained.html") ∧
    HasPrefix (ascii "http-2-explained.html") (ascii "http://") = false ∧
    HasPrefix (ascii "http-2-explained.html") (ascii "https://") = false := by
  decide

/-! ## Middleware: client key and cleaner -/

/-- C8: `getClientIP` returns the (first) value of the `X-Forwarded-For`
header when the header is present with a non-empty value, and the remote peer
address otherwise; two requests that agree on that header value and on
`RemoteAddr` get the same result. -/
theorem C8_getClientIP (r : Request) :
    (∀ v vs, r.Header.lookup (ascii "X-Forwarded-For") = some (v :: vs) → v ≠ [] →
      getClientIP r = v) ∧
    ((r.Header.lookup (ascii "X-Forwarded-For") = none ∨
      r.Header.lookup (ascii "X-Forwarded-For") = some [] ∨
      ∃ vs, r.Header.lookup (ascii "X-Forwarded-For") = some ([] :: vs)) →
      getClientIP r = r.RemoteAddr) ∧
    (∀ r' : Request,
      HeaderGet r'.Header (ascii "X-Forwarded-For")
        = HeaderGet r.Header (ascii "X-Forwarded-For") →
      r'.RemoteAddr = r.RemoteAddr → getClientIP r' = getClientIP r) := by
  refine ⟨?_, ?_, ?_⟩
  · intro v vs h hv
    simp [getClientIP, HeaderGet, h, hv]
  · rintro (h | h | ⟨vs, h⟩) <;> simp [getClientIP, HeaderGet, h]
  · intro r' h1 h2
    simp only [getClientIP, h1, h2]

/-- A request with the header is keyed by the header value, one without it by
its peer address, and the method plays no part. -/
theorem C8_getClientIP_witness :
    ((requestVia "10.0.0.1:4711" "1.2.3.4").Header.lookup (ascii "X-Forwarded-For")
        = some [ascii "1.2.3.4"] ∧
      getClientIP (requestVia "10.0.0.1:4711" "1.2.3.4") = ascii "1.2.3.4") ∧
    ((requestFrom "10.0.0.1:4711").Header.lookup (ascii "X-Forwarded-For") = none ∧
      getClientIP (requestFrom "10.0.0.1:4711") = ascii "10.0.0.1:4711") ∧
    getClientIP { requestVia "10.0.0.1:4711" "1.2.3.4" with Method := ascii "POST" }
      = getClientIP (requestVia "10.0.0.1:4711" "1.2.3.4") :=
  ⟨⟨rfl, (C8_getClientIP (requestVia "10.0.0.1:4711" "1.2.3.4")).1 (ascii "1.2.3.4") [] rfl
      (by decide)⟩,
   ⟨rfl, (C8_getClientIP (requestFrom "10.0.0.1:4711")).2.1 (Or.inl rfl)⟩,
   (C8_getClientIP (requestVia "10.0.0.1:4711" "1.2.3.4")).2.2 _ rfl rfl⟩

theorem lookup_foldl_erase (now : Nat) (ip : GoString)
    (l : List (Sigma fun _ : GoString => Client)) : ∀ acc : GoMap Client,
    (l.foldl (fun acc e => if (now : Int) - (e.2.LastSeen : Int) > 5 * (Minute : Int)
        then acc.erase e.1 else acc) acc).lookup ip =
      if ∃ e ∈ l, e.1 = ip ∧ keptAt now e.2 = false then none else acc.lookup ip := by
  induction l with
  | nil => intro acc; simp
  | cons e rest ih =>
    intro acc
    rw [List.foldl_cons, ih]
    by_cases hrest : ∃ e' ∈ rest, e'.1 = ip ∧ keptAt now e'.2 = false
    · have : ∃ e' ∈ e :: rest, e'.1 = ip ∧ keptAt now e'.2 = false := by
        obtain ⟨e', he', h⟩ := hrest
        exact ⟨e', List.mem_cons_of_mem _ he', h⟩
      rw [if_pos hrest, if_pos this]
    · rw [if_neg hrest]
      by_cases hstale : (now : Int) - (e.2.LastSeen : Int) > 5 * (Minute : Int)
      · have hk : keptAt now e.2 = false := by
          simp only [keptAt, decide_eq_false_iff_not]
          omega
        rw [if_pos hstale]
        by_cases hip : e.1 = ip
        · have : ∃ e' ∈ e :: rest, e'.1 = ip ∧ keptAt now e'.2 = false :=
            ⟨e, List.mem_cons_self _ _, hip, hk⟩
          rw [if_pos this, ← hip, AList.lookup_erase]
        · have : ¬ ∃ e' ∈ e :: rest, e'.1 = ip ∧ keptAt now e'.2 = false := by
            rintro ⟨e', he', h1, h2⟩
            rcases List.mem_cons.1 he' with rfl | he'
            · exact hip h1
            · exact hrest ⟨e', he', h1, h2⟩
          rw [if_neg this, AList.lookup_erase_ne (Ne.symm hip)]
      · have hk : keptAt now e.2 = true := by
          simp only [keptAt, decide_eq_true_eq]
          omega
        have : ¬ ∃ e' ∈ e :: rest, e'.1 = ip ∧ keptAt now e'.2 = false := by
          rintro ⟨e', he', h1, h2⟩
          rcases List.mem_cons.1 he' with rfl | he'
          · rw [hk] at h2; cases h2
          · exact hrest ⟨e', he', h1, h2⟩
        rw [if_neg hstale, if_neg this]

theorem cleanUpClients_lookup (now : Nat) (clients : GoMap Client) (ip : GoString) :
    (cleanUpClients now clients).lookup ip = (clients.lookup ip).filter (keptAt now) := by
  show _ = (clients.lookup ip).filter
    (fun c => decide ((now : Int) - (c.LastSeen : Int) ≤ 5 * (Minute : Int)))
  unfold cleanUpClients
  rw [lookup_foldl_erase]
  cases hl : clients.lookup ip with
  | none =>
    have : ¬ ∃ e ∈ clients.entries, e.1 = ip ∧ keptAt now e.2 = false := by
      rintro ⟨⟨k, c⟩, he, h1, _⟩
      simp only at h1
      subst h1
      have : c ∈ clients.lookup k := AList.mem_lookup_iff.2 he
      rw [hl] at this
      cases this
    rw [if_neg this]
    rfl
  | some c =>
    have hmem : (⟨ip, c⟩ : Sigma fun _ : GoString => Client) ∈ clients.entries :=
      AList.mem_lookup_iff.1 (by rw [hl]; exact rfl)
    by_cases hk : keptAt now c = true
    · have : ¬ ∃ e ∈ clients.entries, e.1 = ip ∧ keptAt now e.2 = false := by
        rintro ⟨⟨k, c'⟩, he, h1, h2⟩
        simp only at h1 h2
        subst h1
        have h3 : c' ∈ clients.lookup k := AList.mem_lookup_iff.2 he
        rw [hl] at h3
        have : c = c' := by simpa using h3
        subst this
        rw [hk] at h2
        cases h2
      rw [if_neg this]
      simp only [keptAt] at hk
      simp only [Option.filter, hk, if_true]
    · have hk' : keptAt now c = false := by simpa using hk
      rw [if_pos ⟨⟨ip, c⟩, hmem, rfl, hk'⟩]
      simp only [keptAt] at hk'
      simp only [Option.filter, hk', Bool.false_eq_true, if_false]

/-- C9: after one pass of the cleaner at `now`, the map holds under each key
what it held before if that client has `now - LastSeen <= 5 minutes`, with the
same bucket and `LastSeen`, and nothing under the other keys. -/
theorem C9_cleanUpClients (now : Nat) (clients : GoMap Client) (ip : GoString) :
    (cleanUpClients now clients).lookup ip =
      (clients.lookup ip).filter
        (fun c => decide ((now : Int) - (c.LastSeen : Int) ≤ 5 * (Minute : Int))) :=
  cleanUpClients_lookup now clients ip

/-! ## Rate limiter: the bound on forwarded requests -/

theorem Second_pos : (0 : ℚ) < (Second : ℚ) := by
  norm_num [Second]

theorem advance_eq (lim : Limiter) (t : Nat) :
    lim.advance t
      = min (lim.burst : ℚ) (lim.tokens + lim.limit * ((t - lim.last : ℕ) : ℚ) / (Second : ℚ)) := by
  unfold Limiter.advance
  by_cases h : t < lim.last
  · have h0 : t - lim.last = 0 := by omega
    simp [h, h0]
  · simp [h]

theorem NewLimiter_advance (rps : ℚ) (burst : Int) (hr : 0 ≤ rps) (t : Nat) :
    (NewLimiter rps burst).advance t = (burst : ℚ) := by
  rw [advance_eq]
  have : 0 ≤ rps * ((t - 0 : ℕ) : ℚ) / (Second : ℚ) :=
    div_nonneg (mul_nonneg hr (Nat.cast_nonneg _)) Second_pos.le
  simp only [NewLimiter]
  exact min_eq_left (by linarith)

theorem Allow_fresh_one (rps : ℚ) (hr : 0 ≤ rps) (now : Nat) :
    (NewLimiter rps 1).Allow now
      = (true, { limit := rps, burst := 1, tokens := 0, last := now }) := by
  have h := NewLimiter_advance rps 1 hr now
  simp only [Limiter.Allow, h]
  norm_num [NewLimiter]

theorem gapThenBack_forwarded :
    forwardedIn (1 / 300) 1 peer 1000 (1000 + (300 * Second - 999))
      Middleware.start gapThenBack = 2 := by
  have h1 : stepEvent (1 / 300) 1 peer Middleware.start
      (Event.enter (requestFrom "1.2.3.4") 0)
      = ({ limiters := [(peer, NewLimiter (1 / 300) 1)]
           clients := (∅ : GoMap Client).insert peer { Limiter := 0, LastSeen := 0 }
           handlers := [{ ip := peer, Limiter := 0 }] }, false) := rfl
  have h2 : stepEvent (1 / 300) 1 peer
      { limiters := [(peer, NewLimiter (1 / 300) 1)]
        clients := (∅ : GoMap Client).insert peer { Limiter := 0, LastSeen := 0 }
        handlers := [{ ip := peer, Limiter := 0 }] }
      (Event.allow 0 1000)
      = ({ limiters := [(peer, ((NewLimiter (1 / 300) 1).Allow 1000).2)]
           clients := (∅ : GoMap Client).insert peer { Limiter := 0, LastSeen := 0 }
           handlers := [] },
         ((NewLimiter (1 / 300) 1).Allow 1000).1 && true) := rfl
  rw [Allow_fresh_one (1 / 300) (by norm_num)] at h2
  have h3 : stepEvent (1 / 300) 1 peer
      { limiters := [(peer, { limit := 1 / 300, burst := 1, tokens := 0, last := 1000 })]
        clients := (∅ : GoMap Client).insert peer { Limiter := 0, LastSeen := 0 }
        handlers := [] }
      (Event.sweep (300 * Second + 1))
      = ({ limiters := [(peer, { limit := 1 / 300, burst := 1, tokens := 0, last := 1000 })]
           clients := ∅
           handlers := [] }, false) := rfl
  have h4 : stepEvent (1 / 300) 1 peer
      { limiters := [(peer, { limit := 1 / 300, burst := 1, tokens := 0, last := 1000 })]
        clients := ∅
        handlers := [] }
      (Event.enter (requestFrom "1.2.3.4") (300 * Second + 1))
      = ({ limiters := [(peer, { limit := 1 / 300, burst := 1, tokens := 0, last := 1000 }),
                         (peer, NewLimiter (1 / 300) 1)]
           clients := (∅ : GoMap Client).insert peer
             { Limiter := 1, LastSeen := 300 * Second + 1 }
           handlers := [{ ip := peer, Limiter := 1 }] }, false) := rfl
  have h5 : stepEvent (1 / 300) 1 peer
      { limiters := [(peer, { limit := 1 / 300, burst := 1, tokens := 0, last := 1000 }),
                      (peer, NewLimiter (1 / 300) 1)]
        clients := (∅ : GoMap Client).insert peer
          { Limiter := 1, LastSeen := 300 * Second + 1 }
        handlers := [{ ip := peer, Limiter := 1 }] }
      (Event.allow 0 (300 * Second + 1))
      = ({ limiters := [(peer, { limit := 1 / 300, burst := 1, tokens := 0, last := 1000 }),
                         (peer, ((NewLimiter (1 / 300) 1).Allow (300 * Second + 1)).2)]
           clients := (∅ : GoMap Client).insert peer
             { Limiter := 1, LastSeen := 300 * Second + 1 }
           handlers := [] },
         ((NewLimiter (1 / 300) 1).Allow (300 * Second + 1)).1 && true) := rfl
  rw [Allow_fresh_one (1 / 300) (by norm_num)] at h5
  simp only [gapThenBack, forwardedIn, h1, h2, h3, h4, h5, Event.time]
  norm_num [Second]

/-- A bucket that refills completely within the five minutes (`b = r · 300`)
does not restore the bound `b + r · T`: the five minutes are counted from the
clock reading stored in `LastSeen`, the refill from the later reading of
`Allow()`. Here a microsecond between the two gives two requests passed on
within a window of less than 300 seconds. -/
theorem gapThenBack_exceeds :
    ((1 : Int) : ℚ) ≤ 1 / 300 * 300 ∧ InOrder gapThenBack ∧
    ¬ ((forwardedIn (1 / 300) 1 peer 1000 (1000 + (300 * Second - 999))
          Middleware.start gapThenBack : ℚ)
        ≤ ((1 : Int) : ℚ) + (1 / 300) * ((300 * Second - 999 : ℕ) : ℚ) / (Second : ℚ)) := by
  refine ⟨by norm_num, by decide, ?_⟩
  rw [gapThenBack_forwarded]
  norm_num [Second]

/-- The handler run in one piece is its locked section followed by the call of
`Allow()` of the request that has just come in. -/
theorem RateLimitMiddleware_steps (rps : ℚ) (burst : Int) (m : Middleware) (r : Request)
    (seen now : Nat) :
    RateLimitMiddleware rps burst m r seen now =
      ((handlerAllow (handlerLock rps burst m r seen)
          ((handlerLock rps burst m r seen).handlers.length - 1) now).1,
       match (handlerAllow (handlerLock rps burst m r seen)
          ((handlerLock rps burst m r seen).handlers.length - 1) now).2 with
        | some (_, ok) => ok
        | none => false) := rfl

/-- C7: one iteration of the consumer loop. A failed fetch changes nothing; a
message that does not decode leaves the store as it is and has its offset
committed (when the commit succeeds); a message that decodes to `a` makes the
store `AddArticle(a)` of the old store and has its offset committed, and a
failing commit keeps the insertion. -/
theorem C7_iteration (Unmarshal : GoString → Option Article) (st : ConsumerState)
    (m : Message) (commitOk : Bool) :
    iteration Unmarshal st none commitOk = some st ∧
    (Unmarshal m.Value = none →
      iteration Unmarshal st (some m) commitOk =
        some { storage := st.storage,
               committed := if commitOk then st.committed ++ [m.Offset] else st.committed }) ∧
    (∀ a, Unmarshal m.Value = some a →
      iteration Unmarshal st (some m) commitOk =
        (AddArticle st.storage a).map (fun storage =>
          { storage := storage,
            committed := if commitOk then st.committed ++ [m.Offset] else st.committed })) := by
  refine ⟨rfl, ?_, ?_⟩
  · intro h
    simp only [iteration, h, CommitMessages]
  · intro a h
    simp only [iteration, h, CommitMessages]
    cases AddArticle st.storage a <;> rfl

/-- The messages at offsets 4 (rejected by the decoder) and 5 (an article) leave
both offsets committed and a store holding the one article. -/
theorem C7_iteration_witness :
    (toyUnmarshal (ascii "not json") = none ∧
      iteration toyUnmarshal consumer0 (some ⟨4, ascii "not json"⟩) true =
        some { storage := consumer0.storage, committed := [4] }) ∧
    (toyUnmarshal (ascii "article-5") = some (mkArticle "a5" "Title") ∧
      iteration toyUnmarshal { storage := consumer0.storage, committed := [4] }
          (some ⟨5, ascii "article-5"⟩) true =
        (AddArticle consumer0.storage (mkArticle "a5" "Title")).map (fun storage =>
          { storage := storage, committed := [4, 5] })) ∧
    ((StartConsuming toyUnmarshal consumer0
        [⟨false, some ⟨4, ascii "not json"⟩, true⟩,
         ⟨false, some ⟨5, ascii "article-5"⟩, true⟩,
         ⟨true, none, true⟩]).map
        (fun st => (st.committed, GetLatestArticles st.storage, GetArticleCount st.storage))
      = some ([4, 5], [mkArticle "a5" "Title"], 1)) :=
  ⟨⟨by decide,
    (C7_iteration toyUnmarshal consumer0 ⟨4, ascii "not json"⟩ true).2.1 (by decide)⟩,
   ⟨by decide,
    (C7_iteration toyUnmarshal { storage := consumer0.storage, committed := [4] }
      ⟨5, ascii "article-5"⟩ true).2.2 (mkArticle "a5" "Title") (by decide)⟩,
   by decide⟩

end NewsAggregator
